import Mathlib

/-!
Verification development for the options-tracker repository.

The data model follows `frontend/src/types.ts` (the `Trade` interface and the
result shapes).  Frontend logic (`Trades.tsx`, `ImportCSV.tsx`) is embedded
directly from the TypeScript source.  The backend (FastAPI/SQLite: position
resolver, P&L engine, premium aggregator, CSV import commit) is not part of
the available sources, so those operations are modelled from the
specification; each such definition carries a doc comment starting
`Modelled from the spec:`.

Monetary quantities are embedded as rationals (the spec mandates full
internal precision, rounding only at the presentation boundary).
-/

/-- `asset_type` field of a Trade: 'Option' | 'Stock' | 'Spread'. -/
inductive AssetType where
  | Option
  | Stock
  | Spread
deriving DecidableEq, Repr

instance : BEq AssetType := ⟨fun a b => decide (a = b)⟩

/-- `option_type` field of a Trade: 'Call' | 'Put'. -/
inductive OptionType where
  | Call
  | Put
deriving DecidableEq, Repr

/-- The `Trade` interface from `frontend/src/types.ts`.  Numeric fields are
rationals; nullable fields are `Option`-typed.  `action` is a plain string,
as in the source. -/
structure Trade where
  id : Int
  ticker : String
  asset_type : AssetType
  option_type : Option OptionType
  action : String
  strike_price : Option ℚ
  strike_price_2 : Option ℚ
  expiration_date : Option String
  trade_date : String
  quantity : ℚ
  price_per_unit : ℚ
  fees : ℚ
  notes : Option String
  linked_trade_id : Option Int
  status : Option String
deriving DecidableEq, Repr

/-- The `OpenPosition` result shape from `frontend/src/types.ts`
(fields kept `Option`-typed as on the originating trade). -/
structure OpenPosition where
  id : Int
  ticker : String
  option_type : Option OptionType
  action : String
  strike_price : Option ℚ
  expiration_date : Option String
  quantity : ℚ
  price_per_unit : ℚ
deriving DecidableEq, Repr

/-- The `ImportResult` shape from `frontend/src/types.ts`. -/
structure ImportResult where
  imported : Nat
  errors : List String
  total_errors : Nat
deriving DecidableEq, Repr

/-! ## Premium/cost of a single trade (`Trades.tsx`, `calculatePremiumCost`) -/

/-- Embedding of `calculatePremiumCost` from `frontend/src/pages/Trades.tsx`:
multiplier is 1 for Stock and 100 otherwise; actions
STO/STC/Sell/Expired/Assigned are credits (+), all others debits (−). -/
def calculatePremiumCost (t : Trade) : ℚ :=
  let multiplier : ℚ := if t.asset_type == AssetType.Stock then 1 else 100
  let isCredit := ["STO", "STC", "Sell", "Expired", "Assigned"].contains t.action
  (if isCredit then 1 else -1) * t.price_per_unit * t.quantity * multiplier

/-- The signed premium contribution as the spec words it (§4.3):
`+price_per_unit × quantity × multiplier` for credit actions, the negative
for every other action, multiplier 1 for Stock and 100 otherwise. -/
def specSignedPremium (t : Trade) : ℚ :=
  let m : ℚ := if t.asset_type = AssetType.Stock then 1 else 100
  if t.action = "STO" ∨ t.action = "STC" ∨ t.action = "Sell" ∨
     t.action = "Expired" ∨ t.action = "Assigned" then
    t.price_per_unit * t.quantity * m
  else
    -(t.price_per_unit * t.quantity * m)

/-! ## Close-button guard (`Trades.tsx` line 301) -/

/-- Embedding of the close-button guard in `frontend/src/pages/Trades.tsx`:
`trade.status === 'Open' && trade.asset_type === 'Option' &&
['STO', 'BTO'].includes(trade.action)`. -/
def closeOffered (t : Trade) : Bool :=
  t.status == some "Open" && t.asset_type == AssetType.Option &&
    ["STO", "BTO"].contains t.action

/-! ## Trade-list sort comparator (`Trades.tsx` lines 96-106) -/

/-- Sort keys selectable in the trade list (`SortKey` in `Trades.tsx`). -/
inductive SortKey where
  | trade_date
  | ticker
  | strike_price
  | expiration_date
  | price_per_unit
deriving DecidableEq, Repr

/-- A sort-key value: a string, a number, or null/undefined. -/
inductive SortVal where
  | str (s : String)
  | num (q : ℚ)
  | nullv
deriving DecidableEq, Repr

/-- Extract the sort-key value of a trade (`a[sortKey]` in `Trades.tsx`);
`strike_price` and `expiration_date` may be null. -/
def keyValue (k : SortKey) (t : Trade) : SortVal :=
  match k with
  | .trade_date => .str t.trade_date
  | .ticker => .str t.ticker
  | .strike_price =>
      match t.strike_price with
      | some q => .num q
      | none => .nullv
  | .expiration_date =>
      match t.expiration_date with
      | some s => .str s
      | none => .nullv
  | .price_per_unit => .num t.price_per_unit

/-- The `<` test the comparator applies after lowercasing strings
(heterogeneous comparisons never arise: one key yields one value shape). -/
def svLt (a b : SortVal) : Bool :=
  match a, b with
  | .str x, .str y => decide (x.toLower < y.toLower)
  | .num x, .num y => decide (x < y)
  | _, _ => false

/-- Embedding of the sort comparator in `frontend/src/pages/Trades.tsx`:
null/undefined on the left sorts after (+1), null on the right before (−1),
otherwise compare lowercased/numeric values in the requested direction. -/
def tradeCmp (k : SortKey) (sortAsc : Bool) (a b : Trade) : Int :=
  match keyValue k a, keyValue k b with
  | .nullv, _ => 1
  | _, .nullv => -1
  | va, vb =>
      if svLt va vb then (if sortAsc then -1 else 1)
      else if svLt vb va then (if sortAsc then 1 else -1)
      else 0

/-- Stable insertion of one trade into an already-sorted list, honouring the
comparator (`le x y` means the comparator does not place `x` after `y`). -/
def insertTrade (le : Trade → Trade → Bool) (x : Trade) : List Trade → List Trade
  | [] => [x]
  | y :: ys => if le x y then x :: y :: ys else y :: insertTrade le x ys

/-- `Array.prototype.sort` with the trade comparator, modelled as a stable
comparison sort driven by `tradeCmp`. -/
def sortTrades (k : SortKey) (sortAsc : Bool) (ts : List Trade) : List Trade :=
  ts.foldr (insertTrade (fun a b => tradeCmp k sortAsc a b ≤ 0)) []

/-! ## CSV column auto-detection (`ImportCSV.tsx`, `findCol`) -/

/-- Does `sub` occur as a contiguous substring of `l`?  (Model of JavaScript
`String.prototype.includes` on the character lists.) -/
def subOccurs (sub : List Char) : List Char → Bool
  | [] => sub.isEmpty
  | c :: rest => sub.isPrefixOf (c :: rest) || subOccurs sub rest

/-- `c.toLowerCase().includes(kw)` from `ImportCSV.tsx` (lowercasing applied
characterwise, as on ASCII header names). -/
def lowerIncludes (c kw : String) : Bool :=
  subOccurs kw.data (c.data.map Char.toLower)

/-- Does a column name match any of a field's keywords
(`keywords.some((kw) => c.toLowerCase().includes(kw))`)? -/
def colMatches (keywords : List String) (c : String) : Bool :=
  keywords.any (fun kw => lowerIncludes c kw)

/-- Embedding of `findCol` from `frontend/src/pages/ImportCSV.tsx`: the first
column whose lowercased name contains one of the keywords, else `''`. -/
def findCol (keywords : List String) (cols : List String) : String :=
  match cols.find? (colMatches keywords) with
  | some c => c
  | none => ""

/-- The full auto-detected mapping assembled in `ImportCSV.tsx` after a
preview, with the source's literal keyword lists per target field. -/
def autoDetectMapping (cols : List String) : List (String × String) :=
  [("ticker_col", findCol ["option", "ticker", "symbol"] cols),
   ("action_col", findCol ["action"] cols),
   ("strike_col", findCol ["strike"] cols),
   ("exp_date_col", findCol ["expir", "exp date"] cols),
   ("trade_date_col", findCol ["transaction", "trade date", "date"] cols),
   ("quantity_col", findCol ["contract", "quantity", "qty", "#"] cols),
   ("price_col", findCol ["price", "premium"] cols),
   ("expired_col", findCol ["expired"] cols),
   ("notes_col", findCol ["remark", "note"] cols)]

/-! ## Position Resolver (backend; modelled from the spec, §4.1) -/

/-- Is this trade an opening option/spread leg (STO or BTO on a non-Stock
asset)? -/
def isOpeningOpt (t : Trade) : Bool :=
  (t.asset_type == AssetType.Option || t.asset_type == AssetType.Spread) &&
    (t.action == "STO" || t.action == "BTO")

/-- Is this trade a closing leg (BTC, STC, Expired or Assigned)? -/
def isClosing (t : Trade) : Bool :=
  ["BTC", "STC", "Expired", "Assigned"].contains t.action

/-- Modelled from the spec: the backend position resolver is not in the
available sources.  §4.1: every closing trade whose `linked_trade_id`
references the opening trade subtracts its quantity; this sums the closed
quantity linked to one opening trade id. -/
def closedQty (ledger : List Trade) (openId : Int) : ℚ :=
  ((ledger.filter
      (fun c => isClosing c && c.linked_trade_id == some openId)).map
        (fun c => c.quantity)).sum

/-- Modelled from the spec: the backend position resolver is not in the
available sources.  §4.1: an opening trade contributes +quantity, linked
closing trades subtract theirs; the group is open while the remaining
quantity is > 0, and the remaining quantity (with the opening trade's entry
price) is surfaced on the `OpenPosition`. -/
def openOptionPositions (ledger : List Trade) : List OpenPosition :=
  (ledger.filter isOpeningOpt).filterMap (fun o =>
    let remaining := o.quantity - closedQty ledger o.id
    if remaining > 0 then
      some { id := o.id, ticker := o.ticker, option_type := o.option_type,
             action := o.action, strike_price := o.strike_price,
             expiration_date := o.expiration_date, quantity := remaining,
             price_per_unit := o.price_per_unit }
    else none)

/-! ## P&L Engine (backend; modelled from the spec, §4.2) -/

/-- Modelled from the spec: the backend P&L engine is not in the available
sources.  §4.2: realized amount of one closing leg against its opening leg.
Credit-opening (STO): (open − close) × qty × multiplier − fees of both legs;
debit-opening: (close − open) × qty × multiplier − fees of both legs;
`Expired` on an STO position realizes the full credit (close price 0);
`Assigned` realizes at premium only (same treatment, close price 0). -/
def realizedForPair (o c : Trade) : ℚ :=
  let mult : ℚ := if o.asset_type == AssetType.Stock then 1 else 100
  let closePrice : ℚ :=
    if c.action == "Expired" || c.action == "Assigned" then 0
    else c.price_per_unit
  if o.action == "STO" then
    (o.price_per_unit - closePrice) * c.quantity * mult - (o.fees + c.fees)
  else
    (closePrice - o.price_per_unit) * c.quantity * mult - (o.fees + c.fees)

/-- Modelled from the spec: look up the opening trade a closing leg links to;
only an existing opening trade counts (orphan links resolve to nothing). -/
def lookupOpen (ledger : List Trade) (i : Int) : Option Trade :=
  ledger.find? (fun o => o.id == i && isOpeningOpt o)

/-- Modelled from the spec: realized option P&L over the ledger, the sum of
`realizedForPair` over closing legs whose link resolves to an opening trade;
a closing trade with an orphan or missing link contributes nothing (§4.1:
orphan linkage is silently ignored). -/
def realizedPnl (ledger : List Trade) : ℚ :=
  ((ledger.filter isClosing).map (fun c =>
    match c.linked_trade_id with
    | some i =>
        match lookupOpen ledger i with
        | some o => realizedForPair o c
        | none => 0
    | none => 0)).sum

/-! ## Stock positions (backend; modelled from the spec, §4.1/§4.2) -/

/-- Running stock-position accumulator for one ticker: share count, cost
basis carried, and realized P&L recognized so far. -/
structure StockAcc where
  shares : ℚ
  basis : ℚ
  realized : ℚ
deriving DecidableEq, Repr

/-- Modelled from the spec: the backend stock-position logic is not in the
available sources.  A Buy adds its shares and its full cost (quantity ×
price + fees, per Scenario B's cost_basis = 3000 + 2 = 3002) to the basis; a
Sell removes basis proportionally to the fraction of shares sold
(weighted-average cost) and realizes (price − weighted average cost) ×
shares − fees. -/
def stockStep (acc : StockAcc) (t : Trade) : StockAcc :=
  if t.action == "Buy" then
    { shares := acc.shares + t.quantity,
      basis := acc.basis + t.quantity * t.price_per_unit + t.fees,
      realized := acc.realized }
  else if t.action == "Sell" then
    let avg := acc.basis / acc.shares
    { shares := acc.shares - t.quantity,
      basis := acc.basis - avg * t.quantity,
      realized := acc.realized + (t.price_per_unit - avg) * t.quantity - t.fees }
  else acc

/-- Modelled from the spec: fold a ticker's Buy/Sell sequence into its stock
position (shares, cost basis) and realized P&L. -/
def stockPosition (ts : List Trade) : StockAcc :=
  ts.foldl stockStep ⟨0, 0, 0⟩

/-! ## Calendar dates and period keys (backend; modelled from the spec, §4.3) -/

/-- A calendar date parsed from a `YYYY-MM-DD` string. -/
structure Date where
  year : Nat
  month : Nat
  day : Nat
deriving DecidableEq, Repr

/-- Parse a nonempty all-digit character list as a natural number. -/
def parseNatDigits (cs : List Char) : Option Nat :=
  if cs.isEmpty || !cs.all (fun c => c.isDigit) then none
  else some (cs.foldl (fun n c => n * 10 + (c.toNat - 48)) 0)

/-- Gregorian leap year test. -/
def isLeap (y : Nat) : Bool :=
  (y % 4 == 0 && y % 100 != 0) || y % 400 == 0

/-- Number of days in a month. -/
def daysInMonth (y m : Nat) : Nat :=
  if m == 2 then (if isLeap y then 29 else 28)
  else if m == 4 || m == 6 || m == 9 || m == 11 then 30
  else 31

/-- Split a character list on a separator character (model of
`String.splitOn` for single-character separators). -/
def splitOnChar (sep : Char) : List Char → List (List Char)
  | [] => [[]]
  | c :: rest =>
      match splitOnChar sep rest with
      | [] => [[]]
      | grp :: gs => if c == sep then [] :: grp :: gs else (c :: grp) :: gs

/-- Modelled from the spec: dates come in as `YYYY-MM-DD` strings; an
unparseable date yields `none` (the trade is then excluded from premium
aggregation, §4.3 edge case). -/
def parseDate (s : String) : Option Date :=
  match splitOnChar '-' s.data with
  | [ys, ms, ds] =>
      match parseNatDigits ys, parseNatDigits ms, parseNatDigits ds with
      | some y, some m, some d =>
          if 1 ≤ m && m ≤ 12 && 1 ≤ d && d ≤ daysInMonth y m && 1 ≤ y then
            some ⟨y, m, d⟩
          else none
      | _, _, _ => none
  | _ => none

/-- 1-based ordinal of the day within its year. -/
def dayOfYear (d : Date) : Nat :=
  (List.range (d.month - 1)).foldl (fun acc i => acc + daysInMonth d.year (i + 1)) 0 + d.day

/-- Day of week by Sakamoto's method, 0 = Sunday. -/
def dayOfWeekSun0 (d : Date) : Nat :=
  let t := [0, 3, 2, 5, 0, 3, 5, 1, 4, 6, 2, 4]
  let y := if d.month < 3 then d.year - 1 else d.year
  (y + y / 4 - y / 100 + y / 400 + t.getD (d.month - 1) 0 + d.day) % 7

/-- ISO weekday, 1 = Monday .. 7 = Sunday. -/
def isoWeekday (d : Date) : Nat :=
  let w := dayOfWeekSun0 d
  if w == 0 then 7 else w

/-- Weekday helper for the ISO week-count rule. -/
def pYear (y : Nat) : Nat :=
  (y + y / 4 - y / 100 + y / 400) % 7

/-- Number of ISO weeks in a year (52 or 53). -/
def weeksInYear (y : Nat) : Nat :=
  52 + (if pYear y == 4 || pYear (y - 1) == 3 then 1 else 0)

/-- ISO week of a date, as (ISO year, week number). -/
def isoWeek (d : Date) : Nat × Nat :=
  let w := (10 + dayOfYear d - isoWeekday d) / 7
  if w < 1 then (d.year - 1, weeksInYear (d.year - 1))
  else if w > weeksInYear d.year then (d.year + 1, 1)
  else (d.year, w)

/-- Modelled from the spec: calendar-month period key of a trade, `none` for
an unparseable `trade_date`. -/
def monthKeyOf (t : Trade) : Option String :=
  (parseDate t.trade_date).map (fun d =>
    toString d.year ++ "-" ++ toString d.month)

/-- Modelled from the spec: ISO-week period key of a trade, `none` for an
unparseable `trade_date`. -/
def weekKeyOf (t : Trade) : Option String :=
  (parseDate t.trade_date).map (fun d =>
    let iw := isoWeek d
    toString iw.1 ++ "-W" ++ toString iw.2)

/-! ## Premium Aggregator (backend; modelled from the spec, §4.3) -/

/-- Net premium of a list of trades: sum of signed premium contributions. -/
def netPremiumOf (ts : List Trade) : ℚ :=
  (ts.map calculatePremiumCost).sum

/-- Modelled from the spec: the distinct period keys occurring among the
trades (trades with an unparseable date contribute no key). -/
def periodKeys (keyf : Trade → Option String) (ts : List Trade) : List String :=
  (ts.filterMap keyf).dedup

/-- The trades falling in one period bucket. -/
def tradesInPeriod (keyf : Trade → Option String) (k : String)
    (ts : List Trade) : List Trade :=
  ts.filter (fun t => keyf t == some k)

/-- Modelled from the spec: `net_premium` of one period bucket, the sum of
signed premiums of the trades whose key equals that period. -/
def netPremiumForPeriod (keyf : Trade → Option String) (k : String)
    (ts : List Trade) : ℚ :=
  netPremiumOf (tradesInPeriod keyf k ts)

/-- Sum of `net_premium` over all period buckets at one granularity. -/
def totalNetPremium (keyf : Trade → Option String) (ts : List Trade) : ℚ :=
  ((periodKeys keyf ts).map (fun k => netPremiumForPeriod keyf k ts)).sum

/-! ## CSV Import Pipeline, commit phase (backend; modelled from the spec, §4.4) -/

/-- A raw CSV data row: association of column name to cell text. -/
abbrev Row := List (String × String)

/-- The finalized column mapping handed to the commit phase
(field names as in `ImportCSV.tsx`; `""` means unmapped). -/
structure ColMapping where
  ticker_col : String
  action_col : String
  strike_col : String
  exp_date_col : String
  trade_date_col : String
  quantity_col : String
  price_col : String
  expired_col : String
  notes_col : String
deriving DecidableEq, Repr

/-- Cell of a row under a mapped column name (`none` when the column is
unmapped or absent from the row). -/
def getCell (row : Row) (c : String) : Option String :=
  if c == "" then none
  else (row.find? (fun p => p.1 == c)).map (fun p => p.2)

/-- Modelled from the spec: parse a decimal number token (optional leading
minus, digits, optional fractional part); anything else is unparseable. -/
def parseDecimal (s : String) : Option ℚ :=
  let core (cs : List Char) : Option ℚ :=
    match splitOnChar '.' cs with
    | [ip] => (parseNatDigits ip).map (fun n => (n : ℚ))
    | [ip, fp] =>
        match parseNatDigits ip, parseNatDigits fp with
        | some n, some f => some ((n : ℚ) + (f : ℚ) / ((10 : ℚ) ^ fp.length))
        | _, _ => none
    | _ => none
  match s.data with
  | '-' :: rest => (core rest).map (fun q => -q)
  | cs => core cs

/-- The action tokens the importer recognizes. -/
def recognizedActions : List String :=
  ["STO", "BTO", "BTC", "STC", "Buy", "Sell", "Expired", "Assigned"]

/-- A successfully validated and converted CSV row. -/
structure ParsedRow where
  ticker : String
  action : String
  trade_date : Date
  quantity : ℚ
  price : ℚ
  strike : Option ℚ
  exp_date : Option Date
deriving DecidableEq, Repr

/-- Modelled from the spec: validate and convert one CSV row under a column
mapping (§4.4 phase 2).  Required fields: ticker, action, trade_date,
quantity, price; a missing required field, unparseable date, unparseable
number, or unrecognized action token yields a row error string. -/
def parseRow (m : ColMapping) (row : Row) : Except String ParsedRow := do
  let req (c fieldName : String) : Except String String :=
    match getCell row c with
    | some v => if v == "" then .error ("missing required field " ++ fieldName) else .ok v
    | none => .error ("missing required field " ++ fieldName)
  let ticker ← req m.ticker_col "ticker"
  let actionTok ← req m.action_col "action"
  let dateTok ← req m.trade_date_col "trade_date"
  let qtyTok ← req m.quantity_col "quantity"
  let priceTok ← req m.price_col "price"
  let action ← if recognizedActions.contains actionTok then .ok actionTok
               else .error ("unrecognized action " ++ actionTok)
  let date ← match parseDate dateTok with
             | some d => .ok d
             | none => .error ("unparseable date " ++ dateTok)
  let qty ← match parseDecimal qtyTok with
            | some q => .ok q
            | none => .error ("unparseable number " ++ qtyTok)
  let price ← match parseDecimal priceTok with
              | some q => .ok q
              | none => .error ("unparseable number " ++ priceTok)
  let strike := (getCell row m.strike_col).bind (fun v => parseDecimal v)
  let expd := (getCell row m.exp_date_col).bind (fun v => parseDate v)
  .ok ⟨ticker, action, date, qty, price, strike, expd⟩

/-- Did the row validate? -/
def rowOk (m : ColMapping) (r : Row) : Bool :=
  match parseRow m r with
  | .ok _ => true
  | .error _ => false

/-- Modelled from the spec: process the rows independently starting at row
number `i`; a failing row records an error string naming the row and the
reason and processing continues with the next row (§4.4: no row failure
aborts the batch). -/
def importRowsGo (m : ColMapping) (i : Nat) (rows : List Row)
    (imported : Nat) (errors : List String) : ImportResult :=
  match rows with
  | [] => { imported := imported, errors := errors, total_errors := errors.length }
  | r :: rs =>
      match parseRow m r with
      | .ok _ => importRowsGo m (i + 1) rs (imported + 1) errors
      | .error e =>
          importRowsGo m (i + 1) rs imported
            (errors ++ ["Row " ++ toString i ++ ": " ++ e])

/-- Modelled from the spec: the commit phase of the CSV import over a batch
of data rows (numbered from 1). -/
def importRows (m : ColMapping) (rows : List Row) : ImportResult :=
  importRowsGo m 1 rows 0 []

/-! ## Concrete scenario ledgers (spec §8, Scenarios A and B) -/

/-- Scenario A opening leg: STO 1 AAPL 150 put at 2.00 with fees 0.65. -/
def scenarioOpenSTO : Trade :=
  { id := 1, ticker := "AAPL", asset_type := .Option,
    option_type := some .Put, action := "STO", strike_price := some 150,
    strike_price_2 := none, expiration_date := some "2024-02-16",
    trade_date := "2024-01-01", quantity := 1, price_per_unit := 2,
    fees := 13/20, notes := none, linked_trade_id := none,
    status := some "Closed" }

/-- Scenario A closing leg: buy to close at 0.50 with fees 0.65, linked to
the opening trade. -/
def scenarioCloseBTC : Trade :=
  { scenarioOpenSTO with
    id := 2, action := "BTC", price_per_unit := 1/2, fees := 13/20,
    linked_trade_id := some 1, status := none, trade_date := "2024-01-15" }

/-- Scenario A ledger: the STO opener and its linked closing leg. -/
def scenarioLedgerA : List Trade := [scenarioOpenSTO, scenarioCloseBTC]

/-- Scenario B first buy: 100 shares at 10.00, fees 1.00. -/
def scenarioBuy1 : Trade :=
  { scenarioOpenSTO with
    id := 10, asset_type := .Stock, option_type := none, action := "Buy",
    strike_price := none, expiration_date := none, quantity := 100,
    price_per_unit := 10, fees := 1, status := none }

/-- Scenario B second buy: 100 more shares at 20.00, fees 1.00. -/
def scenarioBuy2 : Trade := { scenarioBuy1 with id := 11, price_per_unit := 20 }

/-- Scenario B sell: 100 shares at 25.00, fees 1.00. -/
def scenarioSell : Trade :=
  { scenarioBuy1 with id := 12, action := "Sell", price_per_unit := 25 }

/-- A closing trade whose `linked_trade_id` references no trade in the
ledger (as after deleting the referenced opener). -/
def orphanCloser : Trade :=
  { scenarioCloseBTC with id := 3, linked_trade_id := some 99 }

/-! ## Helper lemmas -/

/-- Characterization of `List.find?` as the first match in order. -/
lemma find?_first_in_order (p : String → Bool) :
    ∀ (l : List String) (c : String), l.find? p = some c →
      p c = true ∧ ∃ pre post, l = pre ++ c :: post ∧ ∀ x ∈ pre, p x = false := by
  intro l
  induction l with
  | nil => intro c h; simp [List.find?] at h
  | cons a l ih =>
      intro c h
      by_cases hp : p a = true
      · rw [List.find?_cons_of_pos _ hp] at h
        obtain rfl : a = c := by injection h
        exact ⟨hp, [], l, rfl, by simp⟩
      · rw [List.find?_cons_of_neg _ (by simpa using hp)] at h
        obtain ⟨hc, pre, post, rfl, hpre⟩ := ih c h
        refine ⟨hc, a :: pre, post, rfl, ?_⟩
        intro x hx
        rcases List.mem_cons.1 hx with rfl | hx
        · simpa using hp
        · exact hpre x hx

/-- A null sort key on the left makes the comparator return 1. -/
lemma tradeCmp_null_left (k : SortKey) (asc : Bool) (a b : Trade)
    (h : keyValue k a = .nullv) : tradeCmp k asc a b = 1 := by
  simp [tradeCmp, h]

/-- A null sort key on the right (left non-null) returns −1. -/
lemma tradeCmp_null_right (k : SortKey) (asc : Bool) (a b : Trade)
    (ha : keyValue k a ≠ .nullv) (hb : keyValue k b = .nullv) :
    tradeCmp k asc a b = -1 := by
  unfold tradeCmp
  rw [hb]
  cases hva : keyValue k a with
  | nullv => exact absurd hva ha
  | str s => rfl
  | num q => rfl

/-- Membership in an insertion is membership in the inserted element or the
original list. -/
lemma mem_insertTrade (le : Trade → Trade → Bool) (x z : Trade) (l : List Trade) :
    z ∈ insertTrade le x l ↔ z = x ∨ z ∈ l := by
  induction l with
  | nil => simp [insertTrade]
  | cons y ys ih =>
      simp only [insertTrade]
      by_cases h : le x y = true
      · simp [h, List.mem_cons]
      · simp only [if_neg h, List.mem_cons, ih]
        tauto

/-- Inserting with the trade comparator preserves nulls-after-non-nulls. -/
lemma insertTrade_nulls (k : SortKey) (asc : Bool) (x : Trade) (l : List Trade)
    (hl : l.Pairwise (fun a b => keyValue k a = .nullv → keyValue k b = .nullv)) :
    (insertTrade (fun a b => tradeCmp k asc a b ≤ 0) x l).Pairwise
      (fun a b => keyValue k a = .nullv → keyValue k b = .nullv) := by
  induction l with
  | nil => simp [insertTrade]
  | cons y ys ih =>
      rw [List.pairwise_cons] at hl
      obtain ⟨hy, hys⟩ := hl
      simp only [insertTrade]
      by_cases hle : tradeCmp k asc x y ≤ 0
      · rw [if_pos (by simpa using hle)]
        rw [List.pairwise_cons]
        refine ⟨?_, List.pairwise_cons.2 ⟨hy, hys⟩⟩
        intro z _ hxn
        exact absurd (tradeCmp_null_left k asc x y hxn ▸ hle) (by norm_num)
      · rw [if_neg (by simpa using hle)]
        rw [List.pairwise_cons]
        refine ⟨?_, ih hys⟩
        intro z hz hyn
        rcases (mem_insertTrade _ x z ys).1 hz with rfl | hz
        · by_contra hzn
          exact hle (le_of_eq (tradeCmp_null_right k asc z y hzn hyn) |>.trans (by norm_num))
        · exact hy z hz hyn

/-- A closing trade is never an opening option trade. -/
lemma isOpeningOpt_of_closing (t : Trade) (h : isClosing t = true) :
    isOpeningOpt t = false := by
  simp only [isClosing, List.contains, List.elem_eq_mem, List.mem_cons,
    List.not_mem_nil, or_false, decide_eq_true_eq] at h
  simp only [isOpeningOpt]
  rcases h with h | h | h | h <;> simp [h]

/-- An appended trade whose link does not reference `i` leaves the closed
quantity of `i` unchanged. -/
lemma closedQty_append_orphan (L : List Trade) (t : Trade) (i : Int)
    (horphan : t.linked_trade_id ≠ some i) :
    closedQty (L ++ [t]) i = closedQty L i := by
  unfold closedQty
  rw [List.filter_append]
  have h0 : List.filter (fun c => isClosing c && c.linked_trade_id == some i) [t] = [] := by
    simp only [List.filter, List.filter_nil]
    have : (t.linked_trade_id == some i) = false := by simpa using horphan
    simp [this]
  rw [h0, List.append_nil]

/-- Appending a non-opening trade does not change opener lookups. -/
lemma lookupOpen_append_nonopen (L : List Trade) (t : Trade) (i : Int)
    (h : isOpeningOpt t = false) :
    lookupOpen (L ++ [t]) i = lookupOpen L i := by
  unfold lookupOpen
  rw [List.find?_append]
  cases hfind : L.find? (fun o => o.id == i && isOpeningOpt o) with
  | some o => simp
  | none => simp [List.find?, h]

/-- Accounting invariant of the import fold: imported counts the validating
rows, the error list enumerates the failing rows in order with their row
numbers, and `total_errors` is the length of the error list. -/
lemma importRowsGo_spec (m : ColMapping) :
    ∀ (rows : List Row) (i imp : Nat) (errs : List String),
      (importRowsGo m i rows imp errs).imported = imp + rows.countP (rowOk m) ∧
      (importRowsGo m i rows imp errs).errors
        = errs ++ (rows.enumFrom i).filterMap (fun p =>
            match parseRow m p.2 with
            | .ok _ => none
            | .error e => some ("Row " ++ toString p.1 ++ ": " ++ e)) ∧
      (importRowsGo m i rows imp errs).errors.length
        = errs.length + rows.countP (fun r => !rowOk m r) ∧
      (importRowsGo m i rows imp errs).total_errors
        = (importRowsGo m i rows imp errs).errors.length := by
  intro rows
  induction rows with
  | nil => intro i imp errs; simp [importRowsGo]
  | cons r rs ih =>
      intro i imp errs
      simp only [importRowsGo]
      cases hp : parseRow m r with
      | ok v =>
          have hok : rowOk m r = true := by simp [rowOk, hp]
          obtain ⟨h1, h2, h3, h4⟩ := ih (i + 1) (imp + 1) errs
          refine ⟨?_, ?_, ?_, h4⟩
          · rw [h1, List.countP_cons, hok]
            simp [Nat.add_comm, Nat.add_assoc, Nat.add_left_comm]
          · rw [h2, List.enumFrom_cons]
            simp [hp]
          · rw [h3, List.countP_cons, hok]
            simp
      | error e =>
          have hok : rowOk m r = false := by simp [rowOk, hp]
          obtain ⟨h1, h2, h3, h4⟩ :=
            ih (i + 1) imp (errs ++ ["Row " ++ toString i ++ ": " ++ e])
          refine ⟨?_, ?_, ?_, h4⟩
          · rw [h1, List.countP_cons, hok]
            simp
          · rw [h2, List.enumFrom_cons]
            simp [hp]
          · rw [h3, List.countP_cons, hok]
            simp [Nat.add_comm, Nat.add_assoc, Nat.add_left_comm]

/-- Sums over a Boolean partition of a list add to the sum over the list. -/
lemma sum_map_filter_add (p : Trade → Bool) (f : Trade → ℚ) (l : List Trade) :
    ((l.filter p).map f).sum + ((l.filter (fun x => !p x)).map f).sum
      = (l.map f).sum := by
  induction l with
  | nil => simp
  | cons a l ih =>
      simp only [List.filter_cons, List.map_cons, List.sum_cons]
      cases h : p a with
      | true =>
          simp only [h, Bool.not_true, if_pos, if_neg (by simp : ¬ (false = true)),
            List.map_cons, List.sum_cons]
          rw [← ih]
          ring
      | false =>
          simp only [h, Bool.not_false, if_pos, if_neg (by simp : ¬ (false = true)),
            List.map_cons, List.sum_cons]
          rw [← ih]
          ring

/-- Partitioning a list by a nodup, covering key list and summing bucket by
bucket gives the total sum. -/
lemma sum_over_keys (f : Trade → ℚ) (keyf : Trade → Option String) :
    ∀ (keys : List String) (l : List Trade), keys.Nodup →
      (∀ x ∈ l, ∃ k ∈ keys, keyf x = some k) →
      (keys.map (fun k => ((l.filter (fun x => keyf x == some k)).map f).sum)).sum
        = (l.map f).sum := by
  intro keys
  induction keys with
  | nil =>
      intro l _ hcov
      cases l with
      | nil => simp
      | cons a l => exact absurd (hcov a (List.mem_cons_self a l)) (by simp)
  | cons k ks ih =>
      intro l hnd hcov
      rw [List.map_cons, List.sum_cons]
      have hkns : k ∉ ks := (List.nodup_cons.1 hnd).1
      have hper : ∀ k' ∈ ks,
          l.filter (fun x => keyf x == some k')
            = (l.filter (fun x => !(keyf x == some k))).filter
                (fun x => keyf x == some k') := by
        intro k' hk'
        rw [List.filter_filter]
        apply List.filter_congr
        intro x _
        by_cases hx : keyf x = some k'
        · have hkk : k' ≠ k := fun hcon => hkns (hcon ▸ hk')
          have hnk : (keyf x == some k) = false := by rw [hx]; simpa using hkk
          simp [hx, hnk, hkk]
        · have : (keyf x == some k') = false := by simpa using hx
          simp [this]
      have hsum2 : (ks.map (fun k' =>
            ((l.filter (fun x => keyf x == some k')).map f).sum)).sum
          = ((l.filter (fun x => !(keyf x == some k))).map f).sum := by
        have hmc := List.map_congr_left (l := ks)
          (f := fun k' => ((l.filter (fun x => keyf x == some k')).map f).sum)
          (g := fun k' => (((l.filter (fun x => !(keyf x == some k))).filter
            (fun x => keyf x == some k')).map f).sum)
          (fun k' hk' => by dsimp only; rw [hper k' hk'])
        rw [hmc]
        apply ih _ (List.nodup_cons.1 hnd).2
        intro x hx
        have hxl := List.mem_filter.1 hx
        obtain ⟨k'', hk''mem, hk''⟩ := hcov x hxl.1
        rcases List.mem_cons.1 hk''mem with rfl | hmem
        · exfalso
          have hcontra := hxl.2
          rw [hk''] at hcontra
          simp at hcontra
        · exact ⟨k'', hmem, hk''⟩
      rw [hsum2]
      exact sum_map_filter_add (fun x => keyf x == some k) f l

/-- Summing `net_premium` over all buckets of any period key equals the
plain signed-premium sum over the trades with a valid key. -/
lemma totalNetPremium_eq_filtered (keyf : Trade → Option String) (ts : List Trade) :
    totalNetPremium keyf ts
      = ((ts.filter (fun t => (keyf t).isSome)).map calculatePremiumCost).sum := by
  unfold totalNetPremium netPremiumForPeriod netPremiumOf tradesInPeriod periodKeys
  have hb : ∀ k, ts.filter (fun t => keyf t == some k)
      = (ts.filter (fun t => (keyf t).isSome)).filter (fun t => keyf t == some k) := by
    intro k
    rw [List.filter_filter]
    apply List.filter_congr
    intro x _
    by_cases hx : keyf x = some k
    · simp [hx]
    · have : (keyf x == some k) = false := by simpa using hx
      simp [this]
  have hcongr := List.map_congr_left (l := (ts.filterMap keyf).dedup)
    (f := fun k => ((ts.filter (fun t => keyf t == some k)).map calculatePremiumCost).sum)
    (g := fun k => (((ts.filter (fun t => (keyf t).isSome)).filter
      (fun t => keyf t == some k)).map calculatePremiumCost).sum)
    (fun k _ => by dsimp only; rw [hb k])
  rw [hcongr]
  apply sum_over_keys _ _ _ _ (List.nodup_dedup _)
  intro x hx
  have hxl := List.mem_filter.1 hx
  obtain ⟨k, hk⟩ := Option.isSome_iff_exists.1 (by simpa using hxl.2)
  exact ⟨k, List.mem_dedup.2 (List.mem_filterMap.2 ⟨x, hxl.1, hk⟩), hk⟩

/-! ## Claim theorems -/

/-- C1: For every opening STO option trade closed by a linked closing trade,
the realized P&L equals (open_price − close_price) × quantity × 100 −
(opening fees + closing fees); in particular, for Scenario A (STO at 2.00
with fees 0.65, quantity 1, closed at 0.50 with fees 0.65) the realized P&L
is 148.70 and the position is no longer reported open. -/
theorem sto_close_realized_pnl (o c : Trade) (ho : o.action = "STO")
    (hc : c.action = "BTC") (ha : o.asset_type ≠ AssetType.Stock) :
    realizedForPair o c
      = (o.price_per_unit - c.price_per_unit) * c.quantity * 100
        - (o.fees + c.fees)
    ∧ realizedPnl scenarioLedgerA = 1487/10
    ∧ openOptionPositions scenarioLedgerA = [] := by
  refine ⟨?_, ?_, ?_⟩
  · simp [realizedForPair, ho, hc, ha]
  · simp [realizedPnl, scenarioLedgerA, lookupOpen, realizedForPair, isClosing,
      isOpeningOpt, scenarioOpenSTO, scenarioCloseBTC, List.filter_cons, List.find?]
    norm_num
  · simp [openOptionPositions, scenarioLedgerA, closedQty, isClosing, isOpeningOpt,
      scenarioOpenSTO, scenarioCloseBTC, List.filter_cons, List.filterMap]

/-- Witness for C1 at the Scenario A trades. -/
theorem sto_close_realized_pnl_witness :
    realizedForPair scenarioOpenSTO scenarioCloseBTC
      = (scenarioOpenSTO.price_per_unit - scenarioCloseBTC.price_per_unit)
          * scenarioCloseBTC.quantity * 100
          - (scenarioOpenSTO.fees + scenarioCloseBTC.fees)
    ∧ realizedPnl scenarioLedgerA = 1487/10
    ∧ openOptionPositions scenarioLedgerA = [] :=
  sto_close_realized_pnl scenarioOpenSTO scenarioCloseBTC rfl rfl (by decide)

/-- C2: Every trade's signed premium contribution is +price × quantity ×
multiplier for actions STO/STC/Sell/Expired/Assigned and the negative of
that for every other action, with multiplier 1 for Stock and 100 otherwise;
and a period's net_premium is the sum of these contributions over the
period's trades. -/
theorem premium_sign_convention (t : Trade) (ts : List Trade)
    (keyf : Trade → Option String) (k : String) :
    calculatePremiumCost t = specSignedPremium t ∧
    netPremiumForPeriod keyf k ts
      = ((tradesInPeriod keyf k ts).map calculatePremiumCost).sum := by
  constructor
  · simp only [calculatePremiumCost, specSignedPremium, List.contains,
      List.elem_eq_mem, List.mem_cons, List.not_mem_nil, or_false,
      decide_eq_true_eq]
    split_ifs <;> simp_all
  · rfl

/-- C3: The CSV import processes rows independently — imported counts the
validating rows, each failing row yields one error string naming the row and
the reason, total_errors equals the error-list length, and row counts are
additive over batch concatenation (no row failure aborts the batch). -/
theorem csv_import_row_isolation (m : ColMapping) (rows rs1 rs2 : List Row) :
    (importRows m rows).imported = rows.countP (rowOk m) ∧
    (importRows m rows).errors
      = (rows.enumFrom 1).filterMap (fun p =>
          match parseRow m p.2 with
          | .ok _ => none
          | .error e => some ("Row " ++ toString p.1 ++ ": " ++ e)) ∧
    (importRows m rows).total_errors = (importRows m rows).errors.length ∧
    (importRows m rows).errors.length = rows.countP (fun r => !rowOk m r) ∧
    (importRows m (rs1 ++ rs2)).imported
      = (importRows m rs1).imported + (importRows m rs2).imported ∧
    (importRows m (rs1 ++ rs2)).total_errors
      = (importRows m rs1).total_errors + (importRows m rs2).total_errors := by
  have hs := fun rows => importRowsGo_spec m rows 1 0 []
  obtain ⟨h1, h2, h3, h4⟩ := hs rows
  obtain ⟨g1, g2, g3, g4⟩ := hs (rs1 ++ rs2)
  obtain ⟨a1, a2, a3, a4⟩ := hs rs1
  obtain ⟨b1, b2, b3, b4⟩ := hs rs2
  refine ⟨by simpa using h1, by simpa using h2, h4, by simpa using h3, ?_, ?_⟩
  · unfold importRows at *
    rw [g1, a1, b1, List.countP_append]
    simp [Nat.add_assoc]
  · unfold importRows at *
    rw [g4, a4, b4, g3, a3, b3, List.countP_append]
    simp [Nat.add_assoc]

/-- C4: For an opening option trade partially closed by linked closing
trades (summed closed quantity below the opening quantity), the resolver
reports an open position with quantity = opening − closed, carrying the
opening trade's entry price; and every reported open quantity is positive
(never negative). -/
theorem partial_close_open_quantity (L : List Trade) (t : Trade) (hmem : t ∈ L)
    (hopen : isOpeningOpt t = true)
    (hpart : closedQty L t.id < t.quantity) :
    (∃ p ∈ openOptionPositions L,
        p.id = t.id ∧ p.quantity = t.quantity - closedQty L t.id ∧
        0 < p.quantity ∧ p.price_per_unit = t.price_per_unit) ∧
    (∀ p ∈ openOptionPositions L, 0 < p.quantity) := by
  constructor
  · refine ⟨{ id := t.id, ticker := t.ticker, option_type := t.option_type,
              action := t.action, strike_price := t.strike_price,
              expiration_date := t.expiration_date,
              quantity := t.quantity - closedQty L t.id,
              price_per_unit := t.price_per_unit }, ?_, rfl, rfl,
      sub_pos.mpr hpart, rfl⟩
    unfold openOptionPositions
    refine List.mem_filterMap.2 ⟨t, List.mem_filter.2 ⟨hmem, hopen⟩, ?_⟩
    rw [if_pos (sub_pos.mpr hpart)]
  · intro p hp
    unfold openOptionPositions at hp
    obtain ⟨o, _, ho⟩ := List.mem_filterMap.1 hp
    by_cases hrem : o.quantity - closedQty L o.id > 0
    · rw [if_pos hrem] at ho
      obtain rfl : _ = p := by injection ho
      simpa using hrem
    · rw [if_neg hrem] at ho
      exact absurd ho (by simp)

/-- Witness for C4: a single never-closed STO opener is reported open with
its full quantity. -/
theorem partial_close_open_quantity_witness :
    (∃ p ∈ openOptionPositions [scenarioOpenSTO],
        p.id = scenarioOpenSTO.id ∧
        p.quantity = scenarioOpenSTO.quantity
          - closedQty [scenarioOpenSTO] scenarioOpenSTO.id ∧
        0 < p.quantity ∧ p.price_per_unit = scenarioOpenSTO.price_per_unit) ∧
    (∀ p ∈ openOptionPositions [scenarioOpenSTO], 0 < p.quantity) :=
  partial_close_open_quantity [scenarioOpenSTO] scenarioOpenSTO (by simp)
    (by decide) (by simp [closedQty, isClosing, scenarioOpenSTO, List.filter_cons])

/-- C5: For trades whose dates all parse, the sum of net_premium over all
month buckets equals the sum over all ISO-week buckets. -/
theorem premium_month_week_consistency (ts : List Trade)
    (h : ∀ t ∈ ts, (parseDate t.trade_date).isSome = true) :
    totalNetPremium monthKeyOf ts = totalNetPremium weekKeyOf ts := by
  rw [totalNetPremium_eq_filtered, totalNetPremium_eq_filtered]
  have h1 : ts.filter (fun t => (monthKeyOf t).isSome) = ts := by
    apply List.filter_eq_self.2
    intro t ht
    simp [monthKeyOf, Option.isSome_map, h t ht]
  have h2 : ts.filter (fun t => (weekKeyOf t).isSome) = ts := by
    apply List.filter_eq_self.2
    intro t ht
    simp [weekKeyOf, Option.isSome_map, h t ht]
  rw [h1, h2]

/-- Witness for C5 on a one-trade ledger with a valid date. -/
theorem premium_month_week_consistency_witness :
    totalNetPremium monthKeyOf [scenarioOpenSTO]
      = totalNetPremium weekKeyOf [scenarioOpenSTO] :=
  premium_month_week_consistency [scenarioOpenSTO] (by decide)

/-- C6: A stock Sell reduces cost basis proportionally to the fraction of
shares sold (weighted-average cost) and realizes (price − weighted average
cost) × shares − fees; in Scenario B the two buys give shares 200 and cost
basis 3002, and selling 100 at 25.00 (fees 1.00) realizes 998 leaving
shares 100 with cost basis 1501. -/
theorem stock_weighted_average_cost (acc : StockAcc) (t : Trade)
    (ht : t.action = "Sell") :
    (stockStep acc t).basis = acc.basis * (1 - t.quantity / acc.shares) ∧
    (stockStep acc t).realized
      = acc.realized + (t.price_per_unit - acc.basis / acc.shares) * t.quantity
        - t.fees ∧
    stockPosition [scenarioBuy1, scenarioBuy2] = ⟨200, 3002, 0⟩ ∧
    stockPosition [scenarioBuy1, scenarioBuy2, scenarioSell] = ⟨100, 1501, 998⟩ := by
  have hb : (t.action == "Buy") = false := by rw [ht]; rfl
  have hs : (t.action == "Sell") = true := by rw [ht]; rfl
  refine ⟨?_, ?_, ?_, ?_⟩
  · simp only [stockStep, hb, hs, Bool.false_eq_true, if_false, if_true]
    ring
  · simp only [stockStep, hb, hs, Bool.false_eq_true, if_false, if_true]
  · simp [stockPosition, stockStep, scenarioBuy1, scenarioBuy2, scenarioOpenSTO,
      List.foldl]
    norm_num
  · simp [stockPosition, stockStep, scenarioBuy1, scenarioBuy2, scenarioSell,
      scenarioOpenSTO, List.foldl]
    norm_num

/-- Witness for C6 at the Scenario B position and sell trade. -/
theorem stock_weighted_average_cost_witness :
    (stockStep ⟨200, 3002, 0⟩ scenarioSell).basis
      = 3002 * (1 - scenarioSell.quantity / 200) ∧
    (stockStep ⟨200, 3002, 0⟩ scenarioSell).realized
      = 0 + (scenarioSell.price_per_unit - 3002 / 200) * scenarioSell.quantity
        - scenarioSell.fees ∧
    stockPosition [scenarioBuy1, scenarioBuy2] = ⟨200, 3002, 0⟩ ∧
    stockPosition [scenarioBuy1, scenarioBuy2, scenarioSell] = ⟨100, 1501, 998⟩ :=
  stock_weighted_average_cost ⟨200, 3002, 0⟩ scenarioSell rfl

/-- C7: Column auto-detection assigns to a field the first column (in header
order) whose name contains, case-insensitively, one of the field's keywords
as a substring, and the empty value when no column matches. -/
theorem auto_detect_first_match (kws cols : List String) :
    (∀ c, cols.find? (colMatches kws) = some c →
        findCol kws cols = c ∧ colMatches kws c = true ∧
        ∃ pre post, cols = pre ++ c :: post ∧ ∀ x ∈ pre, colMatches kws x = false) ∧
    (cols.find? (colMatches kws) = none →
        findCol kws cols = "" ∧ ∀ c ∈ cols, colMatches kws c = false) := by
  constructor
  · intro c h
    obtain ⟨hm, pre, post, heq, hpre⟩ := find?_first_in_order _ cols c h
    exact ⟨by simp [findCol, h], hm, pre, post, heq, hpre⟩
  · intro h
    refine ⟨by simp [findCol, h], ?_⟩
    intro c hc
    simpa using List.find?_eq_none.1 h c hc

/-- Witness for C7: of the headers Symbol and Strike Price, the strike
keyword selects Strike Price, and Symbol does not match. -/
theorem auto_detect_first_match_witness :
    findCol ["strike"] ["Symbol", "Strike Price"] = "Strike Price" ∧
    colMatches ["strike"] "Strike Price" = true ∧
    ∃ pre post, ["Symbol", "Strike Price"] = pre ++ "Strike Price" :: post ∧
      ∀ x ∈ pre, colMatches ["strike"] x = false :=
  (auto_detect_first_match ["strike"] ["Symbol", "Strike Price"]).1
    "Strike Price" (by decide)

/-- C8: A closing trade whose `linked_trade_id` references no trade in the
ledger (as after deleting the referenced trade) changes neither the open
positions nor the realized P&L: both computations complete and simply do not
attribute the orphan's effect to any group. -/
theorem orphan_link_tolerated (L : List Trade) (t : Trade)
    (hclosing : isClosing t = true)
    (horphan : ∀ u ∈ L, some u.id ≠ t.linked_trade_id) :
    openOptionPositions (L ++ [t]) = openOptionPositions L ∧
    realizedPnl (L ++ [t]) = realizedPnl L := by
  have hnopen := isOpeningOpt_of_closing t hclosing
  constructor
  · unfold openOptionPositions
    rw [List.filter_append]
    have h1 : List.filter isOpeningOpt [t] = [] := by simp [List.filter, hnopen]
    rw [h1, List.append_nil]
    apply List.filterMap_congr
    intro o ho
    have hoL : o ∈ L := (List.mem_filter.1 ho).1
    rw [closedQty_append_orphan L t o.id (fun hc => horphan o hoL hc.symm)]
  · unfold realizedPnl
    rw [List.filter_append]
    have h1 : List.filter isClosing [t] = [t] := by simp [List.filter, hclosing]
    rw [h1]
    rw [List.map_append, List.sum_append]
    have h2 : ∀ c ∈ L.filter isClosing,
        (match c.linked_trade_id with
         | some i =>
             match lookupOpen (L ++ [t]) i with
             | some o => realizedForPair o c
             | none => 0
         | none => 0) =
        (match c.linked_trade_id with
         | some i =>
             match lookupOpen L i with
             | some o => realizedForPair o c
             | none => 0
         | none => 0) := by
      intro c _
      cases c.linked_trade_id with
      | none => rfl
      | some i =>
          dsimp only
          rw [lookupOpen_append_nonopen L t i hnopen]
    rw [List.map_congr_left h2]
    have h3 : (List.map (fun c =>
        match c.linked_trade_id with
        | some i =>
            match lookupOpen (L ++ [t]) i with
            | some o => realizedForPair o c
            | none => 0
        | none => 0) [t]).sum = 0 := by
      simp only [List.map, List.sum_cons, List.sum_nil]
      cases hlink : t.linked_trade_id with
      | none => simp
      | some i =>
          dsimp only
          have hno : lookupOpen (L ++ [t]) i = none := by
            unfold lookupOpen
            rw [List.find?_append]
            have hL : L.find? (fun o => o.id == i && isOpeningOpt o) = none := by
              rw [List.find?_eq_none]
              intro u hu
              have hne : (u.id == i) = false := by
                have hor := horphan u hu
                rw [hlink] at hor
                simpa using fun he => hor (by rw [he])
              simp [hne]
            rw [hL]
            simp [List.find?, hnopen]
          rw [hno]
          simp
    rw [h3, add_zero]

/-- Witness for C8: appending an orphan closer to a one-opener ledger. -/
theorem orphan_link_tolerated_witness :
    openOptionPositions ([scenarioOpenSTO] ++ [orphanCloser])
      = openOptionPositions [scenarioOpenSTO] ∧
    realizedPnl ([scenarioOpenSTO] ++ [orphanCloser])
      = realizedPnl [scenarioOpenSTO] :=
  orphan_link_tolerated [scenarioOpenSTO] orphanCloser (by decide) (by decide)

/-- C9: The Close operation is offered exactly when the trade's status is
Open, its asset type is Option and its action is STO or BTO; in particular
a Spread trade is never offered the Close operation. -/
theorem close_button_guard (t : Trade) :
    (closeOffered t = true ↔
      (t.status = some "Open" ∧ t.asset_type = AssetType.Option ∧
        (t.action = "STO" ∨ t.action = "BTO"))) ∧
    (t.asset_type = AssetType.Spread → closeOffered t = false) := by
  constructor
  · simp [closeOffered, List.contains, and_assoc]
  · intro h
    simp [closeOffered, h]

/-- Witness for C9 at the Scenario A opener (status Closed, so not offered). -/
theorem close_button_guard_witness :
    (closeOffered scenarioOpenSTO = true ↔
      (scenarioOpenSTO.status = some "Open" ∧
        scenarioOpenSTO.asset_type = AssetType.Option ∧
        (scenarioOpenSTO.action = "STO" ∨ scenarioOpenSTO.action = "BTO"))) ∧
    (scenarioOpenSTO.asset_type = AssetType.Spread →
      closeOffered scenarioOpenSTO = false) :=
  close_button_guard scenarioOpenSTO

/-- C10: For every sort key and both directions, the sorted trade list
places every trade whose key value is null/undefined after all trades with
a non-null value. -/
theorem sort_nulls_last (k : SortKey) (asc : Bool) (ts : List Trade) :
    (sortTrades k asc ts).Pairwise
      (fun a b => keyValue k a = SortVal.nullv → keyValue k b = SortVal.nullv) := by
  unfold sortTrades
  induction ts with
  | nil => simp
  | cons t ts ih => exact insertTrade_nulls k asc t _ ih
